import Mathlib

/-!
Verification of the streaming fetch-and-relay proxy (`src/server.js`).

The JavaScript source is shallowly embedded: each relevant function of the
server becomes an executable Lean definition operating over explicit state,
with asynchronous effects (network attempts, backoff waits, timers) made
explicit as oracles and event traces.  JavaScript strings become `String`,
JS objects used as maps become association lists, byte chunks are modelled
by their sizes (`Nat`), and `parseInt`-style parsing is reproduced on
characters.

One library fact that the embedding takes seriously: the source imports
`const { setTimeout } = require('timers/promises')` at module scope, so the
name `setTimeout` inside `server.js` denotes the promisified timer whose
first argument is the DELAY and whose result is a promise.  The call shape
`new Promise(resolve => setTimeout(resolve, delay))` (used in
`fetchFromYouTube`) therefore never invokes `resolve`, and the surrounding
`await` never completes.  The embedding models such a wait as a `hangs`
outcome.  The shape `await setTimeout(delay)` (used in `fetchWithRetries`)
is a genuine delay and is modelled as a recorded wait.
-/

namespace VideoProxy

/-! ## String helpers (JS semantics) -/

/-- Lower-casing of one ASCII character, as `String.prototype.toLowerCase`
acts on the header names appearing in the source. -/
def charLower (c : Char) : Char :=
  if 'A' ≤ c ∧ c ≤ 'Z' then Char.ofNat (c.toNat + 32) else c

/-- `s.toLowerCase()` over the characters of `s`. -/
def lowerStr (s : String) : String :=
  String.mk (s.toList.map charLower)

/-- Does `pat` occur at the head of `s`?  (Helper for substring search.) -/
def leadMatch : List Char → List Char → Bool
  | [], _ => true
  | _ :: _, [] => false
  | p :: ps, c :: cs => p = c && leadMatch ps cs

/-- Does `pat` occur anywhere inside `s`?  (Helper for `String.includes`.) -/
def hasSub : List Char → List Char → Bool
  | [], pat => pat.isEmpty
  | c :: rest, pat => leadMatch pat (c :: rest) || hasSub rest pat

/-- JS `s.includes(pat)` for the nonempty literal patterns of the source. -/
def containsSub (s pat : String) : Bool :=
  hasSub s.toList pat.toList

/-- Numeric value of a maximal run of leading decimal digits;
`none` when there is no leading digit (JS `parseInt` returns `NaN`). -/
def digitsVal (cs : List Char) : Option Nat :=
  let ds := cs.takeWhile Char.isDigit
  if ds.isEmpty then none
  else some (ds.foldl (fun a c => a * 10 + (c.toNat - 48)) 0)

/-- A whitespace character skipped by JS `parseInt`. -/
def isWs (c : Char) : Bool :=
  c = ' ' || c = '\t' || c = '\n' || c = '\r'

/-- JS `parseInt(s, 10)`: skip whitespace, optional sign, then leading
digits; `none` models `NaN`. -/
def jsParseInt (s : String) : Option Int :=
  match (s.toList).dropWhile isWs with
  | '-' :: rest => (digitsVal rest).map (fun n => -(n : Int))
  | '+' :: rest => (digitsVal rest).map (fun n => (n : Int))
  | cs => (digitsVal cs).map (fun n => (n : Int))

/-! ## Admission limiter (`rateLimiter`, `server.js` lines 9-36)

`requestCounts` is a JS object keyed by client IP; it is embedded as an
association list with default count 0, exactly mirroring
`requestCounts[ip] || 0`. -/

def RATE_LIMIT_WINDOW : Nat := 60 * 1000

def RATE_LIMIT_MAX : Nat := 10

/-- `requestCounts[ip] || 0`. -/
def getCount : List (String × Nat) → String → Nat
  | [], _ => 0
  | p :: rest, ip => if p.1 = ip then p.2 else getCount rest ip

/-- `requestCounts[ip] = n` (JS object assignment: overwrite existing key,
otherwise add it). -/
def setCount : List (String × Nat) → String → Nat → List (String × Nat)
  | [], ip, n => [(ip, n)]
  | p :: rest, ip, n => if p.1 = ip then (ip, n) :: rest else p :: setCount rest ip n

/-- Outcome of the rate-limiting middleware for one request. -/
inductive Decision where
  | allowed
  | rejected (status retryAfter : Nat)
deriving DecidableEq, Repr

/-- The `rateLimiter` middleware: increment the per-IP count
(`requestCounts[ip] = (requestCounts[ip] || 0) + 1`), then reject with
`429` and `retryAfter = Math.floor(RATE_LIMIT_WINDOW / 1000)` when the
updated count exceeds `RATE_LIMIT_MAX`. -/
def rateLimiter (m : List (String × Nat)) (ip : String) :
    Decision × List (String × Nat) :=
  if getCount (setCount m ip (getCount m ip + 1)) ip > RATE_LIMIT_MAX then
    (.rejected 429 (RATE_LIMIT_WINDOW / 1000), setCount m ip (getCount m ip + 1))
  else
    (.allowed, setCount m ip (getCount m ip + 1))

/-- The `setInterval` reset handler: `Object.keys(requestCounts)` each set
to `0`. -/
def resetCounts (m : List (String × Nat)) : List (String × Nat) :=
  m.map (fun p => (p.1, 0))

/-- Running the middleware over a sequence of requests (one IP per
request), recording each decision. -/
def seqDecisions : List (String × Nat) → List String → List (String × Decision)
  | _, [] => []
  | m, ip :: rest =>
    let r := rateLimiter m ip
    (ip, r.1) :: seqDecisions r.2 rest

/-- How many requests of client `c` were admitted in a decision log. -/
def allowedCountFor (c : String) (log : List (String × Decision)) : Nat :=
  (log.filter (fun p => p.1 = c ∧ p.2 = .allowed)).length

/-! ### Rate-limiter lemmas -/

theorem getCount_setCount_same (m : List (String × Nat)) (ip : String) (n : Nat) :
    getCount (setCount m ip n) ip = n := by
  induction m with
  | nil => simp [setCount, getCount]
  | cons p rest ih =>
    by_cases h : p.1 = ip
    · simp [setCount, getCount, h]
    · simp [setCount, getCount, h, ih]

theorem getCount_setCount_other (m : List (String × Nat)) (ip j : String) (n : Nat)
    (h : j ≠ ip) : getCount (setCount m ip n) j = getCount m j := by
  have h' : ip ≠ j := Ne.symm h
  induction m with
  | nil => simp [setCount, getCount, h']
  | cons p rest ih =>
    by_cases hp : p.1 = ip
    · subst hp
      simp [setCount, getCount, h']
    · by_cases hj : p.1 = j
      · simp [setCount, getCount, hp, hj, h, h']
      · simp [setCount, getCount, hp, hj, ih]

theorem getCount_resetCounts (m : List (String × Nat)) (ip : String) :
    getCount (resetCounts m) ip = 0 := by
  induction m with
  | nil => rfl
  | cons p rest ih =>
    by_cases h : p.1 = ip
    · simp [resetCounts, getCount, h]
    · simp [resetCounts, getCount, h] at ih ⊢
      exact ih

theorem rateLimiter_snd (m : List (String × Nat)) (ip : String) :
    (rateLimiter m ip).2 = setCount m ip (getCount m ip + 1) := by
  unfold rateLimiter
  split <;> rfl

theorem rateLimiter_count (m : List (String × Nat)) (ip : String) :
    getCount (rateLimiter m ip).2 ip = getCount m ip + 1 := by
  rw [rateLimiter_snd, getCount_setCount_same]

theorem rateLimiter_decision (m : List (String × Nat)) (ip : String) :
    (rateLimiter m ip).1 =
      (if getCount m ip + 1 > RATE_LIMIT_MAX then
        Decision.rejected 429 60 else Decision.allowed) := by
  unfold rateLimiter
  rw [getCount_setCount_same]
  by_cases h : getCount m ip + 1 > RATE_LIMIT_MAX
  · simp only [h, if_true, RATE_LIMIT_WINDOW]
  · simp only [h, if_false]

theorem allowedCountFor_cons (c ip : String) (d : Decision)
    (log : List (String × Decision)) :
    allowedCountFor c ((ip, d) :: log) =
      (if ip = c ∧ d = .allowed then 1 else 0) + allowedCountFor c log := by
  by_cases h : ip = c ∧ d = .allowed
  · simp [allowedCountFor, List.filter_cons, h, Nat.add_comm]
  · simp [allowedCountFor, List.filter_cons, h]

/-- Main invariant for request sequences: the number of admitted requests
of client `c` equals its total requests, truncated at the remaining quota
`RATE_LIMIT_MAX - getCount m c`. -/
theorem allowedCountFor_seq (reqs : List String) (m : List (String × Nat)) (c : String) :
    allowedCountFor c (seqDecisions m reqs) =
      min (reqs.count c) (RATE_LIMIT_MAX - getCount m c) := by
  induction reqs generalizing m with
  | nil => simp [seqDecisions, allowedCountFor]
  | cons ip rest ih =>
    have hstep : seqDecisions m (ip :: rest) =
        (ip, (rateLimiter m ip).1) :: seqDecisions (rateLimiter m ip).2 rest := rfl
    rw [hstep, allowedCountFor_cons, ih]
    by_cases hc : ip = c
    · subst hc
      rw [rateLimiter_count, rateLimiter_decision, List.count_cons_self]
      by_cases hq : getCount m ip + 1 > RATE_LIMIT_MAX
      · rw [if_pos hq]
        have hno : ¬ (ip = ip ∧ Decision.rejected 429 60 = Decision.allowed) := by
          simp
        rw [if_neg hno]
        omega
      · rw [if_neg hq]
        have hyes : ip = ip ∧ Decision.allowed = Decision.allowed := ⟨rfl, rfl⟩
        rw [if_pos hyes]
        omega
    · have hcnt : getCount (rateLimiter m ip).2 c = getCount m c := by
        rw [rateLimiter_snd]
        exact getCount_setCount_other m ip c _ (Ne.symm hc)
      rw [hcnt]
      have hcount : (ip :: rest).count c = rest.count c :=
        List.count_cons_of_ne (Ne.symm hc) rest
      rw [hcount]
      have hno : ¬ (ip = c ∧ (rateLimiter m ip).1 = Decision.allowed) := by
        intro hcon
        exact hc hcon.1
      rw [if_neg hno, Nat.zero_add]

/-! ## Upstream responses and thrown errors -/

/-- The part of a `node-fetch` response that the retry logic inspects:
`status`, `statusText`, and the parsed numeric `retry-after` header
(`none` when the header is absent; the only uses in the claims carry no
such header). -/
structure Response where
  status : Nat
  statusText : String := ""
  retryAfterSecs : Option Nat := none
deriving DecidableEq, Repr

/-- `response.ok` of the fetch API: status in `[200, 300)`. -/
def Response.ok (r : Response) : Prop :=
  200 ≤ r.status ∧ r.status < 300

instance (r : Response) : Decidable r.ok := by
  unfold Response.ok
  infer_instance

/-- A thrown JS error, with the fields the catch block at the end of
`app.get('/proxy')` inspects. -/
structure JsError where
  message : String
  name : Option String := none
  code : Option String := none
  errType : Option String := none
deriving DecidableEq, Repr

/-- What one `await fetch(...)` did: threw a network-level error, or
returned a response. -/
inductive AttemptOutcome where
  | threw (e : JsError)
  | returned (r : Response)
deriving DecidableEq, Repr

/-! ## `fetchWithRetries` (`server.js` lines 42-78)

The loop `for (let attempt = 1; attempt <= maxRetries; attempt++)` is
embedded structurally over the list of the attempts' outcomes (one oracle
entry per loop iteration).  State threaded through iterations: `lastError`
and `retryDelay` (initially 1000); the backoff waits the code performs
(`await setTimeout(...)` from `timers/promises`, a genuine delay here) are
recorded in order. -/

/-- Result of the generic fetch helper: a returned response or a thrown
error, together with the list of waits (in ms) performed on the way. -/
inductive FetchResult where
  | ok (r : Response) (waits : List Nat)
  | error (e : JsError) (waits : List Nat)
deriving DecidableEq, Repr

/-- `new Error('Failed to fetch after multiple attempts')`, thrown when
the loop ends with `lastError` still `undefined`. -/
def defaultFetchErr : JsError :=
  { message := "Failed to fetch after multiple attempts" }

/-- One pass of the `fetchWithRetries` loop.  The `rest` list is the
remaining attempts; `rest = []` exactly when `attempt = maxRetries`
(so `attempt < maxRetries` fails and a thrown error is not retried). -/
def fetchLoop : List AttemptOutcome → Option JsError → Nat → List Nat → FetchResult
  | [], lastError, _, waits => .error (lastError.getD defaultFetchErr) waits
  | o :: rest, lastError, retryDelay, waits =>
    match o with
    | .returned r =>
      if r.status = 429 then
        -- wait `retry-after` seconds (in ms) when present, else the
        -- current backoff delay; double the delay; continue
        fetchLoop rest lastError (retryDelay * 2)
          (waits ++ [match r.retryAfterSecs with
                     | some secs => secs * 1000
                     | none => retryDelay])
      else
        .ok r waits
    | .threw e =>
      match rest with
      | [] => .error e waits
      | o2 :: rest2 =>
        fetchLoop (o2 :: rest2) (some e) (retryDelay * 2) (waits ++ [retryDelay])

/-- `fetchWithRetries(url, options, maxRetries = 3)`: run the loop over
attempts `1 .. maxRetries`, with `lastError` undefined and
`retryDelay = 1000`. -/
def fetchWithRetries (oracle : Nat → AttemptOutcome) (maxRetries : Nat := 3) :
    FetchResult :=
  fetchLoop ((List.range maxRetries).map (fun i => oracle (i + 1))) none 1000 []

/-- The exponential backoff schedule: `n` waits starting at `d` ms, each
double the previous. -/
def backoffs (d n : Nat) : List Nat :=
  (List.range n).map (fun i => d * 2 ^ i)

/-! ## `fetchFromYouTube` (`server.js` lines 81-151)

Provider-aware variant.  Its URL expiry check runs inside the `try` of its
own retry loop, so the expiry `throw` is caught by that loop's `catch`.
All its waits are written `await new Promise(resolve => setTimeout(resolve,
retryDelay))`; `setTimeout` here is the shadowing import from
`timers/promises`, whose first parameter is a delay, so `resolve` is
never invoked and the awaited promise never settles.  Reaching such a wait
is modelled as the `hangs` outcome. -/

/-- Result of the provider-aware fetch, counting the network calls
(`await fetch(...)`) actually issued. -/
inductive YtResult where
  | ok (r : Response) (calls : Nat)
  | error (e : JsError) (calls : Nat)
  | hangs (calls : Nat)
deriving DecidableEq, Repr

/-- The pieces of `new URL(url)` that the expiry check reads. -/
structure YtUrl where
  hostname : String
  expireParam : Option String := none
deriving DecidableEq, Repr

/-- `new Error('YouTube URL has expired. Request a fresh URL.')`. -/
def expiredErr : JsError :=
  { message := "YouTube URL has expired. Request a fresh URL." }

/-- `new Error('YouTube responded with <status> <statusText>')`. -/
def ytStatusErr (status : Nat) (statusText : String) : JsError :=
  { message := "YouTube responded with " ++ toString status ++ " " ++ statusText }

/-- `new Error('Failed to fetch from YouTube after multiple attempts')`. -/
def ytDefaultErr : JsError :=
  { message := "Failed to fetch from YouTube after multiple attempts" }

/-- Does the per-attempt expiry check throw?  True when the hostname
contains `googlevideo.com`, the `expire` query parameter is a truthy
string whose `parseInt` value (seconds, scaled to ms) lies strictly
before `now` (ms).  An unparsable parameter gives `NaN`, and
`NaN < currentTime` is false. -/
def ytExpiryThrows (url : YtUrl) (now : Int) : Bool :=
  containsSub url.hostname "googlevideo.com" &&
  (match url.expireParam with
   | some e =>
     decide (e ≠ "") &&
     (match jsParseInt e with
      | some n => decide (n * 1000 < now)
      | none => false)
   | none => false)

/-- One pass of the `fetchFromYouTube` loop over the remaining attempts.
`calls` counts issued network requests.  Every caught failure with
attempts remaining, and every 429 wait, reaches the never-settling
promise and hangs. -/
def ytLoop (url : YtUrl) (now : Int) :
    List AttemptOutcome → Option JsError → Nat → YtResult
  | [], lastError, calls => .error (lastError.getD ytDefaultErr) calls
  | o :: rest, _, calls =>
    if ytExpiryThrows url now then
      -- the expiry throw is caught by this iteration's catch block,
      -- before any network call
      match rest with
      | [] => .error expiredErr calls
      | _ :: _ => .hangs calls
    else
      match o with
      | .threw e =>
        match rest with
        | [] => .error e (calls + 1)
        | _ :: _ => .hangs (calls + 1)
      | .returned r =>
        if r.status = 429 then
          .hangs (calls + 1)
        else if r.ok then
          .ok r (calls + 1)
        else
          -- `throw new Error('YouTube responded with ...')`, caught below
          match rest with
          | [] => .error (ytStatusErr r.status r.statusText) (calls + 1)
          | _ :: _ => .hangs (calls + 1)

/-- `fetchFromYouTube(url, options, maxRetries = 3)`. -/
def fetchFromYouTube (url : YtUrl) (now : Int) (oracle : Nat → AttemptOutcome)
    (maxRetries : Nat := 3) : YtResult :=
  ytLoop url now ((List.range maxRetries).map (fun i => oracle (i + 1))) none 0

/-! ## The catch-block failure classifier (`server.js` lines 404-470) -/

/-- A JSON error response: status plus the `retryAfter` field when the
body carries one. -/
structure ErrResp where
  status : Nat
  retryAfter : Option Nat := none
deriving DecidableEq, Repr

/-! ### `fetchWithRetries` behaviour lemmas -/

theorem backoffs_zero (d : Nat) : backoffs d 0 = [] := rfl

theorem backoffs_succ (d n : Nat) : backoffs d (n + 1) = d :: backoffs (2 * d) n := by
  unfold backoffs
  rw [List.range_succ_eq_map, List.map_cons, List.map_map]
  refine congrArg₂ _ (by simp) ?h
  refine List.map_congr_left fun i _ => ?hi
  show d * 2 ^ (i + 1) = 2 * d * 2 ^ i
  rw [pow_succ]
  ring

theorem fetchLoop_threw_cons (e : JsError) (o2 : AttemptOutcome)
    (rest2 : List AttemptOutcome) (lastError : Option JsError) (d : Nat)
    (w : List Nat) :
    fetchLoop (.threw e :: o2 :: rest2) lastError d w =
      fetchLoop (o2 :: rest2) (some e) (d * 2) (w ++ [d]) := rfl

theorem fetchLoop_threw_last (e : JsError) (lastError : Option JsError) (d : Nat)
    (w : List Nat) :
    fetchLoop [.threw e] lastError d w = .error e w := rfl

theorem fetchLoop_returned (r : Response) (rest : List AttemptOutcome)
    (lastError : Option JsError) (d : Nat) (w : List Nat) (hr : ¬ r.status = 429) :
    fetchLoop (.returned r :: rest) lastError d w = .ok r w := by
  show (if r.status = 429 then
          fetchLoop rest lastError (d * 2)
            (w ++ [match r.retryAfterSecs with
                   | some secs => secs * 1000
                   | none => d])
        else FetchResult.ok r w) = FetchResult.ok r w
  rw [if_neg hr]

/-- A run of thrown attempts followed by a returned non-429 response:
the loop performs one backoff wait per failure (doubling the delay) and
returns the response. -/
theorem fetchLoop_success (r : Response) (hr : ¬ r.status = 429)
    (rest' : List AttemptOutcome) :
    ∀ (errs : List JsError) (lastError : Option JsError) (d : Nat) (w : List Nat),
      fetchLoop (errs.map .threw ++ .returned r :: rest') lastError d w =
        .ok r (w ++ backoffs d errs.length) := by
  intro errs
  induction errs with
  | nil =>
    intro lastError d w
    rw [List.map_nil, List.nil_append, fetchLoop_returned r rest' lastError d w hr]
    simp [backoffs_zero]
  | cons e errs' ih =>
    intro lastError d w
    have hcons : ∃ o2 rest2,
        errs'.map AttemptOutcome.threw ++ .returned r :: rest' = o2 :: rest2 := by
      cases h : errs'.map AttemptOutcome.threw ++ .returned r :: rest' with
      | nil => exact absurd h (by simp)
      | cons o2 rest2 => exact ⟨o2, rest2, rfl⟩
    obtain ⟨o2, rest2, hsplit⟩ := hcons
    rw [List.map_cons, List.cons_append, hsplit, fetchLoop_threw_cons, ← hsplit, ih]
    rw [List.length_cons, backoffs_succ, List.append_assoc, List.singleton_append,
      Nat.mul_comm d 2]

/-- A run of thrown attempts ending in a final thrown attempt: one backoff
wait per non-final failure, then the last error is propagated. -/
theorem fetchLoop_allFail (elast : JsError) :
    ∀ (errs : List JsError) (lastError : Option JsError) (d : Nat) (w : List Nat),
      fetchLoop (errs.map .threw ++ [.threw elast]) lastError d w =
        .error elast (w ++ backoffs d errs.length) := by
  intro errs
  induction errs with
  | nil =>
    intro lastError d w
    rw [List.map_nil, List.nil_append, fetchLoop_threw_last]
    simp [backoffs_zero]
  | cons e errs' ih =>
    intro lastError d w
    have hcons : ∃ o2 rest2,
        errs'.map AttemptOutcome.threw ++ [AttemptOutcome.threw elast] = o2 :: rest2 := by
      cases h : errs'.map AttemptOutcome.threw ++ [AttemptOutcome.threw elast] with
      | nil => exact absurd h (by simp)
      | cons o2 rest2 => exact ⟨o2, rest2, rfl⟩
    obtain ⟨o2, rest2, hsplit⟩ := hcons
    rw [List.map_cons, List.cons_append, hsplit, fetchLoop_threw_cons, ← hsplit, ih]
    rw [List.length_cons, backoffs_succ, List.append_assoc, List.singleton_append,
      Nat.mul_comm d 2]

/-- Decomposition of the attempt-outcome list of `fetchWithRetries` when
attempts `1 .. k-1` throw and attempt `k` returns. -/
theorem attemptsList_split (oracle : Nat → AttemptOutcome) (errs : Nat → JsError)
    (r : Response) (k maxR : Nat) (hk1 : 1 ≤ k) (hkm : k ≤ maxR)
    (hfail : ∀ i, 1 ≤ i → i < k → oracle i = .threw (errs i))
    (hsucc : oracle k = .returned r) :
    (List.range maxR).map (fun i => oracle (i + 1)) =
      ((List.range (k - 1)).map (fun i => errs (i + 1))).map .threw
        ++ .returned r :: (List.range (maxR - k)).map (fun j => oracle (k + 1 + j)) := by
  have hsum : maxR = (k - 1) + ((maxR - k) + 1) := by omega
  conv_lhs => rw [hsum, List.range_add, List.map_append]
  refine congrArg₂ _ ?hpre ?hpost
  · rw [List.map_map]
    refine List.map_congr_left fun i hi => ?hone
    rw [List.mem_range] at hi
    show oracle (i + 1) = AttemptOutcome.threw (errs (i + 1))
    exact hfail (i + 1) (by omega) (by omega)
  · rw [List.map_map, List.range_succ_eq_map, List.map_cons, List.map_map]
    refine congrArg₂ _ ?hhead ?htail
    · show oracle (k - 1 + 0 + 1) = AttemptOutcome.returned r
      have hk : k - 1 + 0 + 1 = k := by omega
      rw [hk, hsucc]
    · refine List.map_congr_left fun j _ => ?hj
      show oracle (k - 1 + (j + 1) + 1) = oracle (k + 1 + j)
      have hk : k - 1 + (j + 1) + 1 = k + 1 + j := by omega
      rw [hk]

/-- Decomposition of the attempt-outcome list when every attempt throws. -/
theorem attemptsList_split_allFail (oracle : Nat → AttemptOutcome)
    (errs : Nat → JsError) (m : Nat) (hm : 1 ≤ m)
    (hfail : ∀ i, 1 ≤ i → i ≤ m → oracle i = .threw (errs i)) :
    (List.range m).map (fun i => oracle (i + 1)) =
      ((List.range (m - 1)).map (fun i => errs (i + 1))).map .threw
        ++ [.threw (errs m)] := by
  have hsum : m = (m - 1) + 1 := by omega
  conv_lhs => rw [hsum, List.range_succ, List.map_append]
  refine congrArg₂ _ ?hpre ?hlast
  · rw [List.map_map]
    refine List.map_congr_left fun i hi => ?hone
    rw [List.mem_range] at hi
    show oracle (i + 1) = AttemptOutcome.threw (errs (i + 1))
    exact hfail (i + 1) (by omega) (by omega)
  · show [oracle (m - 1 + 1)] = [AttemptOutcome.threw (errs m)]
    rw [← hsum, hfail m hm (le_refl m)]

/-- The chain of checks in the `catch (err)` block of the proxy handler,
in source order. -/
def classify (e : JsError) : ErrResp :=
  if containsSub e.message "URL has expired" then
    { status := 410 }
  else if e.code = some "ENOTFOUND" then
    { status := 404 }
  else if e.errType = some "request-timeout" ∨ e.name = some "AbortError" then
    { status := 504 }
  else if containsSub e.message "429" then
    { status := 429, retryAfter := some 60 }
  else if containsSub e.message "403" then
    { status := 403 }
  else
    { status := 500 }

/-! ## The size-monitoring transform (`sizeMonitorStream`, lines 314-329)

`transform(chunk, encoding, callback)` adds `chunk.length` to the running
total, destroys the stream (without pushing the chunk) when the total
exceeds `MAX_FILE_SIZE`, and otherwise pushes the chunk through.  Chunks
are modelled by their byte lengths. -/

def MAX_FILE_SIZE : Nat := 25 * 1024 * 1024

/-- Final state of the monitor: `completed` when every chunk was pushed,
`destroyed` when the limit was exceeded mid-stream.  `counted` is
`totalBytesStreamed` at that moment; `pushed` lists the chunks actually
forwarded downstream. -/
inductive MonitorResult where
  | completed (counted : Nat) (pushed : List Nat)
  | destroyed (counted : Nat) (pushed : List Nat)
deriving DecidableEq, Repr

/-- Run the transform over the incoming chunks.  `counted` and `pushed`
are the accumulated state (initially `0` and `[]`). -/
def runMonitor (limit : Nat) : Nat → List Nat → List Nat → MonitorResult
  | counted, pushed, [] => .completed counted pushed
  | counted, pushed, c :: rest =>
    if counted + c > limit then
      .destroyed (counted + c) pushed
    else
      runMonitor limit (counted + c) (pushed ++ [c]) rest

/-- The chunks a monitor result forwarded. -/
def MonitorResult.pushedChunks : MonitorResult → List Nat
  | .completed _ pushed => pushed
  | .destroyed _ pushed => pushed

theorem runMonitor_nil (limit acc : Nat) (accList : List Nat) :
    runMonitor limit acc accList [] = .completed acc accList := rfl

theorem runMonitor_cons (limit acc c : Nat) (accList rest : List Nat) :
    runMonitor limit acc accList (c :: rest) =
      if acc + c > limit then .destroyed (acc + c) accList
      else runMonitor limit (acc + c) (accList ++ [c]) rest := rfl

/-- Total bytes of a chunk list. -/
def sumList (l : List Nat) : Nat := l.foldr (· + ·) 0

theorem sumList_nil : sumList [] = 0 := rfl

theorem sumList_cons (c : Nat) (l : List Nat) :
    sumList (c :: l) = c + sumList l := rfl

theorem sumList_append (a b : List Nat) :
    sumList (a ++ b) = sumList a + sumList b := by
  induction a with
  | nil => simp [sumList_nil, sumList]
  | cons c rest ih =>
    rw [List.cons_append, sumList_cons, sumList_cons, ih, Nat.add_assoc]

/-- When the total input exceeds the limit, the monitor is destroyed at
the first chunk that crosses it: everything before that chunk was pushed,
and the counted total is the pre-chunk total plus the crossing chunk. -/
theorem runMonitor_destroyed_spec (limit : Nat) :
    ∀ (chunks : List Nat) (acc : Nat) (accList : List Nat),
      acc ≤ limit → limit < acc + sumList chunks →
      ∃ pre c post, chunks = pre ++ c :: post ∧
        acc + sumList pre ≤ limit ∧
        limit < acc + sumList pre + c ∧
        runMonitor limit acc accList chunks =
          .destroyed (acc + sumList pre + c) (accList ++ pre) := by
  intro chunks
  induction chunks with
  | nil =>
    intro acc accList hacc hover
    rw [sumList_nil] at hover
    omega
  | cons c rest ih =>
    intro acc accList hacc hover
    by_cases hc : acc + c > limit
    · refine ⟨[], c, rest, rfl, ?h1, ?h2, ?h3⟩
      · rw [sumList_nil]; omega
      · rw [sumList_nil]; omega
      · rw [runMonitor_cons, if_pos hc, sumList_nil, Nat.add_zero, List.append_nil]
    · have hover' : limit < (acc + c) + sumList rest := by
        rw [sumList_cons] at hover
        omega
      obtain ⟨pre, c', post, hsplit, h1, h2, h3⟩ :=
        ih (acc + c) (accList ++ [c]) (by omega) hover'
      refine ⟨c :: pre, c', post, ?geq, ?g1, ?g2, ?g3⟩
      · rw [hsplit, List.cons_append]
      · rw [sumList_cons]; omega
      · rw [sumList_cons]; omega
      · rw [runMonitor_cons, if_neg hc, h3, List.append_assoc, List.singleton_append,
          sumList_cons]
        refine congrArg₂ _ (by omega) rfl

/-- A monitor that completes pushed every chunk and counted the full
input. -/
theorem runMonitor_completed_spec (limit : Nat) :
    ∀ (chunks : List Nat) (acc : Nat) (accList : List Nat) (counted : Nat)
      (pushed : List Nat),
      runMonitor limit acc accList chunks = .completed counted pushed →
      pushed = accList ++ chunks ∧ counted = acc + sumList chunks := by
  intro chunks
  induction chunks with
  | nil =>
    intro acc accList counted pushed h
    rw [runMonitor_nil] at h
    cases h
    rw [sumList_nil, List.append_nil]
    exact ⟨rfl, rfl⟩
  | cons c rest ih =>
    intro acc accList counted pushed h
    rw [runMonitor_cons] at h
    by_cases hc : acc + c > limit
    · rw [if_pos hc] at h
      cases h
    · rw [if_neg hc] at h
      obtain ⟨h1, h2⟩ := ih (acc + c) (accList ++ [c]) counted pushed h
      constructor
      · rw [h1, List.append_assoc, List.singleton_append]
      · rw [h2, sumList_cons]; omega

/-- Invariant run: bytes pushed downstream never exceed the limit, and a
destroyed monitor pushed strictly fewer bytes than it counted. -/
theorem runMonitor_pushed_le (limit : Nat) :
    ∀ (chunks : List Nat) (acc : Nat) (accList : List Nat),
      sumList accList = acc → acc ≤ limit →
      sumList (runMonitor limit acc accList chunks).pushedChunks ≤ limit ∧
      (∀ counted pushed,
        runMonitor limit acc accList chunks = .destroyed counted pushed →
        sumList pushed < counted ∧ limit < counted ∧ sumList pushed ≤ limit) := by
  intro chunks
  induction chunks with
  | nil =>
    intro acc accList hinv hacc
    rw [runMonitor_nil]
    constructor
    · rw [MonitorResult.pushedChunks, hinv]
      exact hacc
    · intro counted pushed h
      cases h
  | cons c rest ih =>
    intro acc accList hinv hacc
    rw [runMonitor_cons]
    by_cases hc : acc + c > limit
    · rw [if_pos hc]
      constructor
      · rw [MonitorResult.pushedChunks, hinv]
        exact hacc
      · intro counted pushed h
        cases h
        exact ⟨by omega, by omega, by omega⟩
    · rw [if_neg hc]
      exact ih (acc + c) (accList ++ [c])
        (by rw [sumList_append, hinv, sumList_cons, sumList_nil]; omega) (by omega)

/-! ## Header relay (`server.js` lines 290-309)

Upstream headers are a list of (name, value) pairs with case-insensitively
unique names (the fetch `Headers` object).  The client response's headers
are a case-insensitive map written through `res.setHeader`; an abstract
set `bad` of names models the header names whose `setHeader` call throws
(the failure is caught, logged and skipped in the loop). -/

/-- The transport-framing headers the relay refuses to copy. -/
def skippedHeaders : List String :=
  ["content-encoding", "content-length", "connection", "transfer-encoding"]

/-- Case-insensitive lookup, as both `response.headers.get` and the
client response's header table behave. -/
def getHdr : List (String × String) → String → Option String
  | [], _ => none
  | (k, v) :: rest, q => if lowerStr k = lowerStr q then some v else getHdr rest q

/-- `res.setHeader(k, v)`: replace any case-insensitive match of `k`. -/
def setHdr (hs : List (String × String)) (k v : String) : List (String × String) :=
  hs.filter (fun p => ¬ lowerStr p.1 = lowerStr k) ++ [(k, v)]

/-- One iteration of the copy loop: skip framing headers; a `setHeader`
failure (names in `bad`) is caught and skipped; otherwise copy. -/
def copyStep (bad : List String) (res : List (String × String))
    (kv : String × String) : List (String × String) :=
  if lowerStr kv.1 ∈ skippedHeaders then res
  else if kv.1 ∈ bad then res
  else setHdr res kv.1 kv.2

/-- The `for (const [key, value] of response.headers.entries())` loop. -/
def copyHeaders (bad : List String) (up : List (String × String))
    (res0 : List (String × String)) : List (String × String) :=
  up.foldl (copyStep bad) res0

/-- The full header-relay stage: copy loop, then force `Content-Type`,
defaulting to `application/octet-stream` when upstream's is absent
(or the empty string, which is falsy). -/
def relayHeaders (bad : List String) (up : List (String × String)) :
    List (String × String) :=
  match getHdr up "content-type" with
  | some ct =>
    if ct = "" then
      setHdr (copyHeaders bad up []) "Content-Type" "application/octet-stream"
    else
      setHdr (copyHeaders bad up []) "Content-Type" ct
  | none => setHdr (copyHeaders bad up []) "Content-Type" "application/octet-stream"

/-! ### Header lemmas -/

theorem getHdr_setHdr (hs : List (String × String)) (k v q : String) :
    getHdr (setHdr hs k v) q =
      if lowerStr q = lowerStr k then some v else getHdr hs q := by
  induction hs with
  | nil =>
    by_cases h : lowerStr q = lowerStr k
    · simp [setHdr, getHdr, h]
    · have h' : ¬ lowerStr k = lowerStr q := fun hh => h hh.symm
      simp [setHdr, getHdr, h, h']
  | cons p rest ih =>
    by_cases hpk : lowerStr p.1 = lowerStr k
    · have hstep : setHdr (p :: rest) k v = setHdr rest k v := by
        simp [setHdr, List.filter_cons, hpk]
      rw [hstep, ih]
      by_cases hq : lowerStr q = lowerStr k
      · rw [if_pos hq, if_pos hq]
      · rw [if_neg hq, if_neg hq]
        have hpq2 : ¬ lowerStr p.1 = lowerStr q := by
          rw [hpk]
          exact fun hh => hq hh.symm
        rw [getHdr, if_neg hpq2]
    · have hstep : setHdr (p :: rest) k v = p :: setHdr rest k v := by
        simp [setHdr, List.filter_cons, hpk]
      rw [hstep]
      by_cases hpq : lowerStr p.1 = lowerStr q
      · have hq : ¬ lowerStr q = lowerStr k := by
          rw [← hpq]
          exact hpk
        rw [getHdr, if_pos hpq, if_neg hq, getHdr, if_pos hpq]
      · rw [getHdr, if_neg hpq, ih]
        by_cases hq : lowerStr q = lowerStr k
        · rw [if_pos hq, if_pos hq]
        · rw [if_neg hq, if_neg hq, getHdr, if_neg hpq]

theorem getHdr_copyStep_other (bad : List String) (res : List (String × String))
    (kv : String × String) (q : String) (h : ¬ lowerStr kv.1 = lowerStr q) :
    getHdr (copyStep bad res kv) q = getHdr res q := by
  unfold copyStep
  by_cases h1 : lowerStr kv.1 ∈ skippedHeaders
  · rw [if_pos h1]
  · rw [if_neg h1]
    by_cases h2 : kv.1 ∈ bad
    · rw [if_pos h2]
    · rw [if_neg h2, getHdr_setHdr, if_neg (fun hh => h hh.symm)]

theorem getHdr_copyHeaders_untouched (bad : List String) (up : List (String × String)) :
    ∀ (acc : List (String × String)) (q : String),
      (∀ kv ∈ up, ¬ lowerStr kv.1 = lowerStr q) →
      getHdr (copyHeaders bad up acc) q = getHdr acc q := by
  induction up with
  | nil =>
    intro acc q _
    rfl
  | cons kv rest ih =>
    intro acc q h
    have hstep : copyHeaders bad (kv :: rest) acc =
        copyHeaders bad rest (copyStep bad acc kv) := rfl
    rw [hstep, ih (copyStep bad acc kv) q (fun kv2 h2 => h kv2 (List.mem_cons_of_mem kv h2)),
      getHdr_copyStep_other bad acc kv q (h kv (List.mem_cons_self kv rest))]

theorem getHdr_copyHeaders_skipped (bad : List String) (up : List (String × String)) :
    ∀ (acc : List (String × String)) (q : String),
      lowerStr q ∈ skippedHeaders → getHdr acc q = none →
      getHdr (copyHeaders bad up acc) q = none := by
  induction up with
  | nil =>
    intro acc q _ hacc
    exact hacc
  | cons kv rest ih =>
    intro acc q hq hacc
    have hstep : copyHeaders bad (kv :: rest) acc =
        copyHeaders bad rest (copyStep bad acc kv) := rfl
    rw [hstep]
    refine ih (copyStep bad acc kv) q hq ?hstepnone
    unfold copyStep
    by_cases h1 : lowerStr kv.1 ∈ skippedHeaders
    · rw [if_pos h1]
      exact hacc
    · rw [if_neg h1]
      by_cases h2 : kv.1 ∈ bad
      · rw [if_pos h2]
        exact hacc
      · rw [if_neg h2, getHdr_setHdr, if_neg (fun hh : lowerStr q = lowerStr kv.1 =>
          h1 (hh ▸ hq)), hacc]

theorem getHdr_of_mem_uniq (up : List (String × String)) (k v : String)
    (huniq : up.Pairwise (fun a b => ¬ lowerStr a.1 = lowerStr b.1))
    (hmem : (k, v) ∈ up) (q : String) (hq : lowerStr q = lowerStr k) :
    getHdr up q = some v := by
  induction up with
  | nil => cases hmem
  | cons p rest ih =>
    rw [List.pairwise_cons] at huniq
    rcases List.mem_cons.mp hmem with hhead | htail
    · rw [← hhead, getHdr, if_pos (by rw [hq])]
    · have hne : ¬ lowerStr p.1 = lowerStr k := huniq.1 (k, v) htail
      rw [getHdr, if_neg (fun hh => hne (hh.trans hq)), ih huniq.2 htail]

/-- The copy loop places every non-skipped, non-failing upstream header
into the client response (headers after it in the list cannot clobber it,
by case-insensitive uniqueness). -/
theorem getHdr_copyHeaders_mem (bad : List String) (up : List (String × String))
    (k v : String)
    (huniq : up.Pairwise (fun a b => ¬ lowerStr a.1 = lowerStr b.1))
    (hmem : (k, v) ∈ up) (hskip : lowerStr k ∉ skippedHeaders) (hbad : k ∉ bad) :
    getHdr (copyHeaders bad up []) k = some v := by
  obtain ⟨pre, post, hsplit⟩ := List.append_of_mem hmem
  subst hsplit
  rw [List.pairwise_append] at huniq
  have hpost : ∀ kv ∈ post, ¬ lowerStr kv.1 = lowerStr k := by
    intro kv hkv
    rw [List.pairwise_cons] at huniq
    intro hh
    exact huniq.2.1.1 kv hkv (by rw [hh])
  have hloop : copyHeaders bad (pre ++ (k, v) :: post) [] =
      copyHeaders bad post (copyStep bad (copyHeaders bad pre []) (k, v)) := by
    unfold copyHeaders
    rw [List.foldl_append, List.foldl_cons]
  rw [hloop,
    getHdr_copyHeaders_untouched bad post _ k hpost]
  unfold copyStep
  rw [if_neg hskip, if_neg hbad, getHdr_setHdr, if_pos rfl]

/-! ## Range forwarding and status propagation (lines 252-258, 285-288) -/

/-- JS truthiness of `req.headers.range` (`undefined` and the empty
string are falsy). -/
def rangeTruthy : Option String → Bool
  | some r => decide (¬ r = "")
  | none => false

/-- The `Range` header sent upstream: the client's when truthy, else
`bytes=0-`. -/
def forwardedRange : Option String → String
  | some r => if r = "" then "bytes=0-" else r
  | none => "bytes=0-"

/-- `if (rangeHeader && response.status === 206) res.status(206)`; the
Express default status is 200 otherwise. -/
def clientStatus (rangeHeader : Option String) (upStatus : Nat) : Nat :=
  if rangeTruthy rangeHeader ∧ upStatus = 206 then 206 else 200

/-! ## Relay pipeline and handler trace (lines 158-470)

`UpstreamResponse` carries what the relay stage reads: status, headers,
and the body as a list of chunk sizes.  The client-visible wire events:
`pulse` (a keepalive newline written by the 10-second interval), `json s`
(a JSON error response with status `s`, which Node can only deliver when
no bytes have been written yet), `head s` (status and headers flushed at
the start of body streaming), `chunk n` (n body bytes relayed), and
`ended` (the connection closed). -/

structure UpstreamResponse where
  status : Nat
  headers : List (String × String)
  chunks : List Nat
deriving DecidableEq, Repr

/-- `parseInt(response.headers.get('content-length'))` guarded by JS
truthiness: a missing or empty header yields `null`, an unparsable one
`NaN`; both are modelled as `none` (each is falsy in the guard below, and
the source compares the value only after this guard). -/
def estimatedSize (r : UpstreamResponse) : Option Int :=
  match getHdr r.headers "content-length" with
  | some s => if s = "" then none else jsParseInt s
  | none => none

/-- `if (estimatedSize && estimatedSize > MAX_FILE_SIZE)`: `0` is falsy,
so the pre-flight 413 fires exactly for a parsed size strictly above the
cap. -/
def preflightTooLarge (r : UpstreamResponse) : Bool :=
  match estimatedSize r with
  | some n => decide (¬ n = 0) && decide ((MAX_FILE_SIZE : Int) < n)
  | none => false

inductive Ev where
  | pulse
  | json (status : Nat)
  | head (status : Nat)
  | chunk (n : Nat)
  | ended
deriving DecidableEq, Repr

/-- The relay stage on a fetched response, as client-visible events: the
pre-flight length check (413 JSON before anything is streamed), else the
status line and headers, the chunks the size monitor lets through, and
the end of the connection (normal completion, or `res.end()` from the
monitor's error handler after a mid-stream destroy). -/
def relayEvents (rangeHeader : Option String) (r : UpstreamResponse) : List Ev :=
  if preflightTooLarge r then
    [.json 413]
  else
    .head (clientStatus rangeHeader r.status) ::
      ((runMonitor MAX_FILE_SIZE 0 [] r.chunks).pushedChunks.map .chunk ++ [.ended])

/-- How the awaited fetch stage ended: a response, a thrown error, or a
stalled await (the provider path's broken waits). -/
inductive FetchOutcome where
  | got (r : UpstreamResponse)
  | threw (e : JsError)
  | hung
deriving Repr

/-- Client-visible trace of one `/proxy` request after admission, URL
classification and option building.  `p` counts the keepalive pulses that
fired before the fetch await settled (each wrote a newline, committing an
implicit 200 head).  When `p > 0`: a thrown error's JSON cannot be
delivered (`res.json` throws on sent headers, uncaught inside the catch
block); a fetched response aborts at the first uncaught `setHeader`
(line 306) whose failure lands in the outer catch, whose own JSON write
fails the same way.  When `p = 0` the catch block delivers the classified
JSON error, or the relay stage runs. -/
def handlerTrace (p : Nat) (rangeHeader : Option String) (fo : FetchOutcome) :
    List Ev :=
  match fo with
  | .hung => List.replicate p .pulse
  | .threw e =>
    if p = 0 then [.json (classify e).status]
    else List.replicate p .pulse
  | .got r =>
    if p = 0 then relayEvents rangeHeader r
    else List.replicate p .pulse

/-- Inversion for a destroyed monitor: the input splits at the crossing
chunk, which was counted but not pushed. -/
theorem runMonitor_destroyed_inv (limit : Nat) :
    ∀ (chunks : List Nat) (acc : Nat) (accList : List Nat) (counted : Nat)
      (pushed : List Nat),
      runMonitor limit acc accList chunks = .destroyed counted pushed →
      ∃ pre c post, chunks = pre ++ c :: post ∧ pushed = accList ++ pre ∧
        counted = acc + sumList pre + c := by
  intro chunks
  induction chunks with
  | nil =>
    intro acc accList counted pushed h
    rw [runMonitor_nil] at h
    cases h
  | cons c rest ih =>
    intro acc accList counted pushed h
    rw [runMonitor_cons] at h
    by_cases hc : acc + c > limit
    · rw [if_pos hc] at h
      cases h
      refine ⟨[], c, rest, rfl, by rw [List.append_nil], ?hcnt⟩
      rw [sumList_nil]
      omega
    · rw [if_neg hc] at h
      obtain ⟨pre, c', post, hsplit, hpush, hcnt⟩ :=
        ih (acc + c) (accList ++ [c]) counted pushed h
      refine ⟨c :: pre, c', post, ?heq2, ?hpush2, ?hcnt2⟩
      · rw [hsplit, List.cons_append]
      · rw [hpush, List.append_assoc, List.singleton_append]
      · rw [hcnt, sumList_cons]
        omega

theorem relayHeaders_eq_some (bad : List String) (up : List (String × String))
    (ct : String) (h : getHdr up "content-type" = some ct) :
    relayHeaders bad up =
      if ct = "" then
        setHdr (copyHeaders bad up []) "Content-Type" "application/octet-stream"
      else
        setHdr (copyHeaders bad up []) "Content-Type" ct := by
  unfold relayHeaders
  rw [h]

theorem relayHeaders_eq_none (bad : List String) (up : List (String × String))
    (h : getHdr up "content-type" = none) :
    relayHeaders bad up =
      setHdr (copyHeaders bad up []) "Content-Type" "application/octet-stream" := by
  unfold relayHeaders
  rw [h]

/-! ## The claims -/

/-- **C1.**  An upstream response whose declared `Content-Length` parses
above the 25 MiB cap makes the relay answer 413 with no body events; a
response with no usable declared length whose body exceeds the cap is
destroyed at the first chunk whose arrival pushes the running total past
the cap (counted total in `(cap, cap + crossingChunk]`), and a run that
ends without the destroy error forwarded every byte — truncation below
the cap is never silent. -/
theorem claim_c1 (rangeHeader : Option String) (r : UpstreamResponse) (n : Int)
    (chunks chunksOk : List Nat) (counted : Nat) (pushed : List Nat)
    (hdecl : estimatedSize r = some n) (hbig : (MAX_FILE_SIZE : Int) < n)
    (hover : MAX_FILE_SIZE < sumList chunks)
    (hcomp : runMonitor MAX_FILE_SIZE 0 [] chunksOk = .completed counted pushed) :
    relayEvents rangeHeader r = [.json 413] ∧
    (∃ pre c post, chunks = pre ++ c :: post ∧
      sumList pre ≤ MAX_FILE_SIZE ∧
      MAX_FILE_SIZE < sumList pre + c ∧
      runMonitor MAX_FILE_SIZE 0 [] chunks = .destroyed (sumList pre + c) pre) ∧
    pushed = chunksOk ∧ counted = sumList chunksOk := by
  have hM : (MAX_FILE_SIZE : Int) = 26214400 := by norm_num [MAX_FILE_SIZE]
  refine ⟨?part1, ?part2, ?part3⟩
  · have hpre : preflightTooLarge r = true := by
      unfold preflightTooLarge
      rw [hdecl]
      have h0 : ¬ n = 0 := by omega
      simp [h0]
      omega
    simp [relayEvents, hpre]
  · obtain ⟨pre, c, post, hsplit, h1, h2, h3⟩ :=
      runMonitor_destroyed_spec MAX_FILE_SIZE chunks 0 [] (Nat.zero_le _)
        (by omega)
    refine ⟨pre, c, post, hsplit, by omega, by omega, ?hmon⟩
    rw [h3]
    refine congrArg₂ _ (by omega) (by rw [List.nil_append])
  · have h := runMonitor_completed_spec MAX_FILE_SIZE chunksOk 0 [] counted pushed hcomp
    refine ⟨by rw [h.1, List.nil_append], by rw [h.2, Nat.zero_add]⟩

def c1resp : UpstreamResponse :=
  { status := 200, headers := [("Content-Length", "30000000")], chunks := [] }

theorem claim_c1_witness :
    relayEvents none c1resp = [Ev.json 413] ∧
    (∃ pre c post, ([20000000, 10000000] : List Nat) = pre ++ c :: post ∧
      sumList pre ≤ MAX_FILE_SIZE ∧
      MAX_FILE_SIZE < sumList pre + c ∧
      runMonitor MAX_FILE_SIZE 0 [] [20000000, 10000000] =
        .destroyed (sumList pre + c) pre) ∧
    ([100, 200] : List Nat) = [100, 200] ∧ (300 : Nat) = sumList [100, 200] :=
  claim_c1 none c1resp 30000000 [20000000, 10000000] [100, 200] 300 [100, 200]
    (by decide) (by decide) (by decide) (by decide)

/-- **C2.**  Per client: the first `RATE_LIMIT_MAX = 10` requests of a
window are admitted and every further one is rejected with 429 and
`retryAfter = 60`; the counter increments on every request, admitted or
not; and the single global reset timer zeroes every client's counter. -/
theorem claim_c2 (m : List (String × Nat)) (ip c j : String) (reqs : List String) :
    getCount (rateLimiter m ip).2 ip = getCount m ip + 1 ∧
    ((rateLimiter m ip).1 = Decision.allowed ↔
      getCount m ip + 1 ≤ RATE_LIMIT_MAX) ∧
    ((rateLimiter m ip).1 = Decision.rejected 429 60 ↔
      RATE_LIMIT_MAX < getCount m ip + 1) ∧
    allowedCountFor c (seqDecisions [] reqs) = min (reqs.count c) RATE_LIMIT_MAX ∧
    getCount (resetCounts m) j = 0 := by
  have hdec := rateLimiter_decision m ip
  refine ⟨rateLimiter_count m ip, ?iff1, ?iff2, ?seq, getCount_resetCounts m j⟩
  · rw [hdec]
    by_cases h : getCount m ip + 1 > RATE_LIMIT_MAX
    · rw [if_pos h]
      constructor
      · intro hh
        cases hh
      · intro hh
        omega
    · rw [if_neg h]
      constructor
      · intro _
        omega
      · intro _
        rfl
  · rw [hdec]
    by_cases h : getCount m ip + 1 > RATE_LIMIT_MAX
    · rw [if_pos h]
      constructor
      · intro _
        omega
      · intro _
        rfl
    · rw [if_neg h]
      constructor
      · intro hh
        cases hh
      · intro hh
        omega
  · have h := allowedCountFor_seq reqs [] c
    rw [h]
    rfl

theorem claim_c2_witness :
    getCount (rateLimiter [("1.2.3.4", 9)] "1.2.3.4").2 "1.2.3.4" = 10 ∧
    ((rateLimiter [("1.2.3.4", 10)] "1.2.3.4").1 = Decision.rejected 429 60) ∧
    allowedCountFor "a" (seqDecisions [] (List.replicate 12 "a")) = 10 ∧
    getCount (resetCounts [("1.2.3.4", 9)]) "1.2.3.4" = 0 := by
  have h9 := claim_c2 [("1.2.3.4", 9)] "1.2.3.4" "a" "1.2.3.4" (List.replicate 12 "a")
  have h10 := claim_c2 [("1.2.3.4", 10)] "1.2.3.4" "a" "1.2.3.4" (List.replicate 12 "a")
  refine ⟨?g1, ?g2, ?g3, ?g4⟩
  · rw [h9.1]
    rfl
  · exact h10.2.2.1.mpr (by decide)
  · rw [h9.2.2.2.1]
    decide
  · exact h9.2.2.2.2

/-- **C3.**  For `1 ≤ k ≤ maxAttempts`: network failures on attempts
`1..k-1` followed by a (non-429) response on attempt `k` yield that
response after exactly `k-1` backoff waits, the first 1000 ms and each
subsequent one double the previous; when every attempt fails, the last
error is propagated (after `maxAttempts - 1` such waits). -/
theorem claim_c3 (oracle oracle2 : Nat → AttemptOutcome) (errs errs2 : Nat → JsError)
    (r : Response) (k maxR m : Nat)
    (hk1 : 1 ≤ k) (hkm : k ≤ maxR)
    (hfail : ∀ i, 1 ≤ i → i < k → oracle i = .threw (errs i))
    (hsucc : oracle k = .returned r) (hr : ¬ r.status = 429)
    (hm : 1 ≤ m)
    (hfail2 : ∀ i, 1 ≤ i → i ≤ m → oracle2 i = .threw (errs2 i)) :
    fetchWithRetries oracle maxR = .ok r (backoffs 1000 (k - 1)) ∧
    fetchWithRetries oracle2 m = .error (errs2 m) (backoffs 1000 (m - 1)) := by
  constructor
  · unfold fetchWithRetries
    rw [attemptsList_split oracle errs r k maxR hk1 hkm hfail hsucc,
      fetchLoop_success r hr _ ((List.range (k - 1)).map (fun i => errs (i + 1)))
        none 1000 []]
    rw [List.nil_append, List.length_map, List.length_range]
  · unfold fetchWithRetries
    rw [attemptsList_split_allFail oracle2 errs2 m hm hfail2,
      fetchLoop_allFail (errs2 m) ((List.range (m - 1)).map (fun i => errs2 (i + 1)))
        none 1000 []]
    rw [List.nil_append, List.length_map, List.length_range]

def c3err : JsError :=
  { message := "connect ECONNREFUSED 93.184.216.34:443", code := some "ECONNREFUSED" }

def c3resp : Response := { status := 200 }

def c3oracleA : Nat → AttemptOutcome :=
  fun i => if i = 1 then .threw c3err else .returned c3resp

def c3errB : JsError :=
  { message := "getaddrinfo ENOTFOUND example.invalid", code := some "ENOTFOUND" }

def c3oracleB : Nat → AttemptOutcome := fun _ => .threw c3errB

theorem claim_c3_witness :
    fetchWithRetries c3oracleA 3 = .ok c3resp (backoffs 1000 1) ∧
    fetchWithRetries c3oracleB 3 = .error c3errB (backoffs 1000 2) :=
  claim_c3 c3oracleA c3oracleB (fun _ => c3err) (fun _ => c3errB) c3resp 2 3 3
    (by omega) (by omega)
    (fun i h1 h2 => by
      have hi : i = 1 := by omega
      subst hi
      rfl)
    rfl (by decide) (by omega)
    (fun i _ _ => rfl)

/-- **C4.**  Over every interleaving of keepalive pulses and fetch
outcomes: a JSON error body is only ever the sole client-visible event
(never after any body byte — a failed fetch stage is resolved before, and
instead of, the relay stage); and once streaming has started (a `head`
event), the rest of the trace is exactly relayed chunks followed by the
end of the connection — a later failure can only terminate, never
rewrite, the committed response. -/
theorem claim_c4 (p : Nat) (rangeHeader : Option String) (fo : FetchOutcome) (s : Nat) :
    (Ev.json s ∈ handlerTrace p rangeHeader fo →
      handlerTrace p rangeHeader fo = [Ev.json s]) ∧
    (Ev.head s ∈ handlerTrace p rangeHeader fo →
      ∃ cs, handlerTrace p rangeHeader fo =
        Ev.head s :: (List.map Ev.chunk cs ++ [Ev.ended])) := by
  cases fo with
  | hung =>
    constructor
    · intro h
      have := List.eq_of_mem_replicate h
      simp at this
    · intro h
      have := List.eq_of_mem_replicate h
      simp at this
  | threw e =>
    by_cases hp : p = 0
    · subst hp
      constructor
      · intro h
        simp [handlerTrace] at h ⊢
        omega
      · intro h
        simp [handlerTrace] at h
    · constructor
      · intro h
        simp only [handlerTrace, if_neg hp] at h
        have := List.eq_of_mem_replicate h
        simp at this
      · intro h
        simp only [handlerTrace, if_neg hp] at h
        have := List.eq_of_mem_replicate h
        simp at this
  | got r =>
    by_cases hp : p = 0
    · subst hp
      by_cases hpre : preflightTooLarge r = true
      · constructor
        · intro h
          simp [handlerTrace, relayEvents, hpre] at h ⊢
          omega
        · intro h
          simp [handlerTrace, relayEvents, hpre] at h
      · have hpre' : preflightTooLarge r = false := by
          cases hb : preflightTooLarge r
          · rfl
          · exact absurd hb hpre
        constructor
        · intro h
          simp [handlerTrace, relayEvents, hpre'] at h
        · intro h
          simp [handlerTrace, relayEvents, hpre'] at h
          subst h
          exact ⟨(runMonitor MAX_FILE_SIZE 0 [] r.chunks).pushedChunks,
            by simp [handlerTrace, relayEvents, hpre']⟩
    · constructor
      · intro h
        simp only [handlerTrace, if_neg hp] at h
        have := List.eq_of_mem_replicate h
        simp at this
      · intro h
        simp only [handlerTrace, if_neg hp] at h
        have := List.eq_of_mem_replicate h
        simp at this

def c4err : JsError :=
  { message := "network timeout at: https://example.com/a.mp4",
    errType := some "request-timeout" }

def c4resp : UpstreamResponse :=
  { status := 200, headers := [("Content-Type", "video/mp4")], chunks := [1000] }

theorem claim_c4_witness :
    handlerTrace 0 none (.threw c4err) = [Ev.json 504] ∧
    (∃ cs, handlerTrace 0 none (.got c4resp) =
      Ev.head 200 :: (List.map Ev.chunk cs ++ [Ev.ended])) :=
  ⟨(claim_c4 0 none (.threw c4err) 504).1 (by decide),
   (claim_c4 0 none (.got c4resp) 200).2 (by decide)⟩

/-- **C5.**  (Evidence for a code bug.)  A `googlevideo` URL whose
`expire` parameter lies in the past does make the expiry check throw
before any network call (zero fetches), and the thrown error would
classify as 410 — but the throw is caught by `fetchFromYouTube`'s own
retry loop, whose wait (`new Promise(resolve => setTimeout(resolve, d))`
with the promisified `setTimeout`) never settles: the fetch hangs instead
of failing immediately, and no 410 ever reaches the client. -/
theorem claim_c5 (oracle : Nat → AttemptOutcome) :
    fetchFromYouTube
      { hostname := "rr1---sn-4g5e6nsz.googlevideo.com",
        expireParam := some "1700000000" }
      1700000001000 oracle 3 = .hangs 0 ∧
    classify expiredErr = { status := 410, retryAfter := none } :=
  ⟨rfl, by decide⟩

/-- **C6.**  (Evidence for a code bug.)  When upstream answers 429 (with
no `Retry-After`) on all three generic attempts, the loop exhausts with
`lastError` still undefined and throws
`Error('Failed to fetch after multiple attempts')`; its message contains
no `429`, so the catch block classifies it as 500 with no `retryAfter` —
not as 429 with the fixed hint. -/
theorem claim_c6 :
    fetchWithRetries (fun _ => .returned { status := 429 }) 3 =
      .error defaultFetchErr [1000, 2000, 4000] ∧
    classify defaultFetchErr = { status := 500, retryAfter := none } ∧
    ¬ (classify defaultFetchErr).status = 429 := by
  refine ⟨by decide, by decide, by decide⟩

/-- **C7 (amended).**  For a non-2xx, non-429 first-attempt response: the
generic path returns the response unchanged (with no waits) to its
caller; the provider-aware path throws `YouTube responded with ...`, but
that throw is caught by its own retry loop, which — attempts remaining —
awaits a never-settling promise: after exactly one network call it
stalls, rather than failing immediately with the error. -/
theorem claim_c7 (oracle oracle2 : Nat → AttemptOutcome) (r : Response)
    (url : YtUrl) (now : Int)
    (hnot2xx : ¬ r.ok) (hnot429 : ¬ r.status = 429)
    (hfirst : oracle 1 = .returned r)
    (hfirst2 : oracle2 1 = .returned r)
    (hexp : ytExpiryThrows url now = false) :
    fetchWithRetries oracle 3 = .ok r [] ∧
    fetchFromYouTube url now oracle2 3 = .hangs 1 := by
  constructor
  · have h : fetchWithRetries oracle 3 =
        fetchLoop [oracle 1, oracle 2, oracle 3] none 1000 [] := rfl
    rw [h, hfirst, fetchLoop_returned r _ none 1000 [] hnot429]
  · have h : fetchFromYouTube url now oracle2 3 =
        ytLoop url now [oracle2 1, oracle2 2, oracle2 3] none 0 := rfl
    rw [h, hfirst2]
    simp [ytLoop, hexp, hnot429, hnot2xx]

def c7url : YtUrl := { hostname := "cdn.example.com" }

def c7oracle : Nat → AttemptOutcome :=
  fun _ => .returned { status := 403, statusText := "Forbidden" }

/-- The provider-aware path at an upstream 403 does not fail immediately
with the upstream-rejected error: it stalls (one network call made). -/
theorem claim_c7_counterexample :
    fetchFromYouTube c7url 0 c7oracle 3 = .hangs 1 ∧
    ¬ fetchFromYouTube c7url 0 c7oracle 3 =
        .error (ytStatusErr 403 "Forbidden") 1 := by
  refine ⟨by decide, by decide⟩

def c7wresp : Response := { status := 503, statusText := "Service Unavailable" }

def c7woracle : Nat → AttemptOutcome := fun _ => .returned c7wresp

def c7wurl : YtUrl := { hostname := "media.example.net" }

theorem claim_c7_witness :
    fetchWithRetries c7woracle 3 = .ok c7wresp [] ∧
    fetchFromYouTube c7wurl 7 c7woracle 3 = .hangs 1 :=
  claim_c7 c7woracle c7woracle c7wresp c7wurl 7
    (by decide) (by decide) rfl rfl (by decide)

/-- **C8.**  Every upstream header outside the four transport-framing
names (compared case-insensitively) whose `setHeader` does not throw is
copied to the client response; a throwing copy is skipped without
aborting the loop (later headers are still copied); the framing headers
are never present on the client response; and a missing upstream
`Content-Type` yields `application/octet-stream`. -/
theorem claim_c8 (bad : List String) (up up2 : List (String × String)) (k v q : String)
    (huniq : up.Pairwise (fun a b => ¬ lowerStr a.1 = lowerStr b.1))
    (hmem : (k, v) ∈ up) (hskip : lowerStr k ∉ skippedHeaders) (hbad : k ∉ bad)
    (hct : lowerStr k = "content-type" → ¬ v = "")
    (hq : lowerStr q ∈ skippedHeaders)
    (hnoct : getHdr up2 "content-type" = none) :
    getHdr (relayHeaders bad up) k = some v ∧
    getHdr (relayHeaders bad up) q = none ∧
    getHdr (relayHeaders bad up2) "content-type" =
      some "application/octet-stream" := by
  have hctlower : lowerStr "Content-Type" = "content-type" := by decide
  have hcopy := getHdr_copyHeaders_mem bad up k v huniq hmem hskip hbad
  refine ⟨?part1, ?part2, ?part3⟩
  · cases hctu : getHdr up "content-type" with
    | none =>
      have hkct : ¬ lowerStr k = "content-type" := by
        intro hh
        have := getHdr_of_mem_uniq up k v huniq hmem "content-type"
          (by rw [hh]; decide)
        rw [hctu] at this
        cases this
      rw [relayHeaders_eq_none bad up hctu, getHdr_setHdr,
        if_neg (by rw [hctlower]; exact hkct), hcopy]
    | some ct =>
      by_cases hctk : lowerStr k = "content-type"
      · have hv : ct = v := by
          have := getHdr_of_mem_uniq up k v huniq hmem "content-type"
            (by rw [hctk]; decide)
          rw [hctu] at this
          exact Option.some.inj this
        have hvne : ¬ ct = "" := by
          rw [hv]
          exact hct hctk
        rw [relayHeaders_eq_some bad up ct hctu, if_neg hvne, getHdr_setHdr,
          if_pos (by rw [hctlower]; exact hctk), hv]
      · rw [relayHeaders_eq_some bad up ct hctu]
        by_cases hcte : ct = ""
        · rw [if_pos hcte, getHdr_setHdr, if_neg (by rw [hctlower]; exact hctk), hcopy]
        · rw [if_neg hcte, getHdr_setHdr, if_neg (by rw [hctlower]; exact hctk), hcopy]
  · have hqct : ¬ lowerStr q = "content-type" := by
      intro hh
      rw [hh] at hq
      exact absurd hq (by decide)
    have hbase := getHdr_copyHeaders_skipped bad up [] q hq rfl
    cases hctu : getHdr up "content-type" with
    | none =>
      rw [relayHeaders_eq_none bad up hctu, getHdr_setHdr,
        if_neg (by rw [hctlower]; exact hqct), hbase]
    | some ct =>
      rw [relayHeaders_eq_some bad up ct hctu]
      by_cases hcte : ct = ""
      · rw [if_pos hcte, getHdr_setHdr, if_neg (by rw [hctlower]; exact hqct), hbase]
      · rw [if_neg hcte, getHdr_setHdr, if_neg (by rw [hctlower]; exact hqct), hbase]
  · rw [relayHeaders_eq_none bad up2 hnoct, getHdr_setHdr, if_pos (by decide)]

def c8up : List (String × String) :=
  [("X-Test", "1"), ("Content-Length", "99"), ("X-Bad", "2"),
   ("Content-Type", "video/mp4")]

def c8up2 : List (String × String) := [("Accept-Ranges", "bytes")]

theorem claim_c8_witness :
    getHdr (relayHeaders ["X-Bad"] c8up) "Content-Type" = some "video/mp4" ∧
    getHdr (relayHeaders ["X-Bad"] c8up) "Content-Length" = none ∧
    getHdr (relayHeaders ["X-Bad"] c8up2) "content-type" =
      some "application/octet-stream" :=
  claim_c8 ["X-Bad"] c8up c8up2 "Content-Type" "video/mp4" "Content-Length"
    (by decide) (by decide) (by decide) (by decide) (by decide) (by decide)
    (by decide)

/-- **C9.**  A (nonempty, hence truthy) client `Range` header is
forwarded verbatim upstream; an absent one becomes `bytes=0-`; and a
client-sent `Range` together with an upstream 206 yields a 206 client
status. -/
theorem claim_c9 (rng : String) (hr : ¬ rng = "") :
    forwardedRange (some rng) = rng ∧
    forwardedRange none = "bytes=0-" ∧
    clientStatus (some rng) 206 = 206 := by
  refine ⟨?f1, rfl, ?f3⟩
  · show (if rng = "" then "bytes=0-" else rng) = rng
    rw [if_neg hr]
  · unfold clientStatus
    rw [if_pos ⟨by simp [rangeTruthy, hr], rfl⟩]

theorem claim_c9_witness :
    forwardedRange (some "bytes=500-999") = "bytes=500-999" ∧
    forwardedRange none = "bytes=0-" ∧
    clientStatus (some "bytes=500-999") 206 = 206 :=
  claim_c9 "bytes=500-999" (by decide)

/-- **C10.**  The size monitor never forwards more than the cap: across
every input, pushed bytes stay ≤ `MAX_FILE_SIZE`; on a destroy, the
crossing chunk was counted but dropped whole (the input splits as
`pre ++ c :: post` with exactly `pre` pushed and `counted = Σpre + c`),
so the forwarded bytes are strictly fewer than the counted total. -/
theorem claim_c10 (chunksAny chunks : List Nat) (counted : Nat) (pushed : List Nat)
    (hdes : runMonitor MAX_FILE_SIZE 0 [] chunks = .destroyed counted pushed) :
    sumList (runMonitor MAX_FILE_SIZE 0 [] chunksAny).pushedChunks ≤ MAX_FILE_SIZE ∧
    sumList pushed < counted ∧
    MAX_FILE_SIZE < counted ∧
    sumList pushed ≤ MAX_FILE_SIZE ∧
    (∃ pre c post, chunks = pre ++ c :: post ∧ pushed = pre ∧
      counted = sumList pre + c) := by
  have h1 := (runMonitor_pushed_le MAX_FILE_SIZE chunksAny 0 [] rfl (Nat.zero_le _)).1
  have h2 := (runMonitor_pushed_le MAX_FILE_SIZE chunks 0 [] rfl (Nat.zero_le _)).2
    counted pushed hdes
  obtain ⟨pre, c, post, hsplit, hpush, hcnt⟩ :=
    runMonitor_destroyed_inv MAX_FILE_SIZE chunks 0 [] counted pushed hdes
  rw [List.nil_append] at hpush
  refine ⟨h1, h2.1, h2.2.1, h2.2.2, pre, c, post, hsplit, hpush, by omega⟩

theorem claim_c10_witness :
    sumList (runMonitor MAX_FILE_SIZE 0 [] [26214400]).pushedChunks ≤ MAX_FILE_SIZE ∧
    sumList [20000000] < 30000000 ∧
    MAX_FILE_SIZE < 30000000 ∧
    sumList [20000000] ≤ MAX_FILE_SIZE ∧
    (∃ pre c post, ([20000000, 10000000] : List Nat) = pre ++ c :: post ∧
      [20000000] = pre ∧ (30000000 : Nat) = sumList pre + c) :=
  claim_c10 [26214400] [20000000, 10000000] 30000000 [20000000] (by decide)

end VideoProxy
